import Mathlib

/-
Verification of the stock-market analysis core (app.py): indicator engine
(20-day SMA, 14-day RSI), the analyzer orchestration (validation, data
fetch error handling, trend classification, peak dates) and the pie-chart
bucketing.  Prices are modelled as exact rationals; the external data
provider (yfinance) is modelled as an oracle parameter.
-/

namespace StockMarket

/-- One price observation, mirroring the dict built in `get_stock_data`
(fields date, open, high, low, close, volume).  Dates are modelled as
naturals (chronological order is all that matters). -/
structure PricePoint where
  date : ℕ
  open_ : ℚ
  high : ℚ
  low : ℚ
  close : ℚ
  volume : ℚ
deriving Repr, DecidableEq, Inhabited

/-- A price point after `calculate_technical_indicators` has attached the
two indicator fields (`d['sma20']`, `d['rsi']`); `none` models Python
`None`. -/
structure IndicatorRow where
  point : PricePoint
  sma20 : Option ℚ
  rsi : Option ℚ
deriving Repr, DecidableEq, Inhabited

/-- SMA entry at index `i`: `sum(closes[i-19:i+1]) / 20` when `i >= 19`,
else `None` (app.py lines 73-77). -/
def smaAt (closes : List ℚ) (i : ℕ) : Option ℚ :=
  if 19 ≤ i then some (((closes.drop (i - 19)).take 20).sum / 20) else none

/-- The full sma20 list, one entry per input index (app.py lines 72-77). -/
def sma20List (closes : List ℚ) : List (Option ℚ) :=
  (List.range closes.length).map (smaAt closes)

/-- The 14 deltas `closes[j] - closes[j-1]` for `j in range(i-13, i+1)`
(app.py line 83).  Out-of-range indices default to 0; they are never hit
when `14 ≤ i < closes.length`, matching Python. -/
def deltasAt (closes : List ℚ) (i : ℕ) : List ℚ :=
  (List.range' (i - 13) (i + 1 - (i - 13))).map
    (fun j => closes.getD j 0 - closes.getD (j - 1) 0)

/-- Computation `gains = [d if d > 0 else 0 for d in deltas]` (app.py line 84). -/
def gainsOf (deltas : List ℚ) : List ℚ :=
  deltas.map (fun d => if 0 < d then d else 0)

/-- Computation `losses = [-d if d < 0 else 0 for d in deltas]` (app.py line 85). -/
def lossesOf (deltas : List ℚ) : List ℚ :=
  deltas.map (fun d => if d < 0 then -d else 0)

/-- RSI entry at index `i` (app.py lines 82-92).  Python computes
`rs = avg_gain / avg_loss if avg_loss != 0 else float('inf')` and then
`100 - 100/(1+rs) if rs != inf else 100`; the infinity sentinel is
modelled as `none` (a finite rational over a nonzero denominator is never
infinite). -/
def rsiAt (closes : List ℚ) (i : ℕ) : Option ℚ :=
  if 14 ≤ i then
    let deltas := deltasAt closes i
    let avg_gain := (gainsOf deltas).sum / 14
    let avg_loss := (lossesOf deltas).sum / 14
    let rs : Option ℚ := if avg_loss ≠ 0 then some (avg_gain / avg_loss) else none
    some (match rs with
          | some r => 100 - 100 / (1 + r)
          | none => 100)
  else none

/-- The full rsi list, one entry per input index (app.py lines 80-92). -/
def rsiList (closes : List ℚ) : List (Option ℚ) :=
  (List.range closes.length).map (rsiAt closes)

/-- Function `calculate_technical_indicators` (app.py lines 58-99): returns the
rows augmented with sma20/rsi plus the current (last-entry) SMA and RSI.
Python mutates the dicts in place and returns the same list; the
functional embedding rebuilds each row around the untouched point.
`sma20[-1] if sma20[-1] is not None else None` is just the last entry as
an option. -/
def calculate_technical_indicators (data : List PricePoint) :
    List IndicatorRow × Option ℚ × Option ℚ :=
  if data = [] then ([], none, none)
  else
    let closes := data.map (fun d => d.close)
    let sma := sma20List closes
    let rsi := rsiList closes
    let rows := (List.range data.length).map (fun i =>
      { point := data.getD i default, sma20 := sma.getD i none, rsi := rsi.getD i none })
    (rows, sma.getLastD none, rsi.getLastD none)

/-- RSI value at an index exactly as the claim words it: form the 14
deltas, partition into gains and losses, take their means (sum over
length), return 100 when the average loss is zero (including the all-flat
case), otherwise `100 - 100/(1 + avg_gain/avg_loss)`. -/
def rsiSpecAt (closes : List ℚ) (i : ℕ) : Option ℚ :=
  if 14 ≤ i then
    let deltas := deltasAt closes i
    let gains := gainsOf deltas
    let losses := lossesOf deltas
    let avg_gain := gains.sum / (gains.length : ℚ)
    let avg_loss := losses.sum / (losses.length : ℚ)
    some (if avg_loss = 0 then 100 else 100 - 100 / (1 + avg_gain / avg_loss))
  else none

/-- Outcome of one call to the external data provider
(`yf.Ticker(...).history(...)`, app.py lines 31-36): either the rows of
the returned frame (possibly empty) or a raised exception carrying a
message. -/
inductive FetchOutcome where
  | ok (df : List PricePoint)
  | err (msg : String)
deriving DecidableEq

/-- A Python argument that may or may not be a string, for the
`isinstance(ticker, str)` test in `analyze_stock` (app.py line 113). -/
inductive TickerInput where
  | str (s : String)
  | nonStr
deriving DecidableEq

/-- Truth of `not ticker or not isinstance(ticker, str) or not
ticker.strip()` (app.py line 113): any non-string fails, and a string
fails exactly when it is empty or whitespace-only, i.e. when all of its
characters are whitespace. -/
def tickerInvalid : TickerInput → Bool
  | .nonStr => true
  | .str s => s.data.all (fun c => c.isWhitespace)

/-- List `valid_timeframes` (app.py line 112). -/
def valid_timeframes : List String :=
  ["1D", "5D", "1M", "3M", "1Y", "5Y", "YTD", "Max"]

/-- The keys of the `timeframes` dict inside `get_stock_data`
(app.py line 17); `YTD` is handled by a separate branch there. -/
def gsd_timeframes : List String :=
  ["1D", "5D", "1M", "3M", "1Y", "5Y", "Max"]

/-- Statement `stock_data.sort(key=lambda x: x['date'])` (app.py line 51): stable
sort by date. -/
def sortByDate (data : List PricePoint) : List PricePoint :=
  data.mergeSort (fun a b => a.date ≤ b.date)

/-- Function `get_stock_data` (app.py lines 6-56) with the provider abstracted as
an oracle: resolve the timeframe (unknown ones answered with an error and
no fetch), call the provider, convert an exception or an empty frame into
an error message, and sort the rows chronologically.  Date-range
arithmetic (`datetime.now()` etc.) only feeds the oracle and is not
observable in the result. -/
def get_stock_data (fetch : String → String → FetchOutcome)
    (ticker timeframe : String) : Option (List PricePoint) × Option String :=
  if timeframe = "YTD" ∨ timeframe ∈ gsd_timeframes then
    match fetch ticker timeframe with
    | .err m => (none, some ("Error fetching data: " ++ m))
    | .ok df =>
      if df = [] then
        (none, some ("Error fetching data: No data found for ticker " ++
          ticker ++ "."))
      else
        (some (sortByDate df), none)
  else
    (none, some ("Invalid timeframe: " ++ timeframe))

/-- The `(summary, data, error)` triple returned by `analyze_stock`
(app.py line 109). -/
structure AnalyzeResult where
  summary : Option String
  rows : Option (List IndicatorRow)
  error : Option String
deriving DecidableEq

/-- The validation error message of app.py line 114. -/
def validationMessage : String :=
  "Invalid input: Please provide a valid ticker and timeframe (" ++
    String.intercalate ", " valid_timeframes ++ ")."

/-- Trend classification (app.py lines 138-140).  Python evaluates
`current_sma20 and current_price > current_sma20`, so a `None` SMA and —
by Python truthiness — an SMA equal to 0 both fall through to
`"neutral"`. -/
def trendOf : Option ℚ → ℚ → String
  | none, _ => "neutral"
  | some s, price =>
    if s ≠ 0 ∧ s < price then "bullish"
    else if s ≠ 0 ∧ price < s then "bearish"
    else "neutral"

/-- Abbreviated rendering of the summary f-string (app.py lines
202-219).  No claim observes the summary text, only its presence; the
narrative sections involve floating-point `sqrt`-based volatility and
are not reproduced digit for digit. -/
def mkSummary (ticker timeframe : String) : String :=
  "Stock Analysis for " ++ ticker.toUpper ++ " (" ++ timeframe ++ ")"

/-- Function `analyze_stock` (app.py lines 101-221), instrumented with a boolean
recording whether the data collaborator was invoked: validate, fetch,
convert a fetch error or missing data into an error triple, otherwise
compute indicators and return the summary with the enriched rows.  The
`.nonStr` arm below the validation test is unreachable (a non-string
ticker always fails validation). -/
def analyze_stock (fetch : String → String → FetchOutcome)
    (ticker : TickerInput) (timeframe : String) : AnalyzeResult × Bool :=
  if tickerInvalid ticker || !(valid_timeframes.contains timeframe) then
    ({ summary := none, rows := none, error := some validationMessage }, false)
  else
    match ticker with
    | .nonStr =>
      ({ summary := none, rows := none, error := some validationMessage }, false)
    | .str s =>
      match get_stock_data fetch s timeframe with
      | (_, some e) =>
        ({ summary := none, rows := none, error := some e }, true)
      | (none, none) =>
        ({ summary := none, rows := none, error := some "No data available." }, true)
      | (some data, none) =>
        if data = [] then
          ({ summary := none, rows := none, error := some "No data available." }, true)
        else
          ({ summary := some (mkSummary s timeframe),
             rows := some (calculate_technical_indicators data).1,
             error := none }, true)

/-- Value `max(closes)` over the series (app.py line 127); 0 for the empty
series, on which Python `max` would raise (`analyze_stock` guards
against empty data before reaching this point). -/
def highest_peak (data : List PricePoint) : ℚ :=
  ((data.map (fun d => d.close)).maximum).unbot' 0

/-- Value `min(closes)` (app.py line 128). -/
def lowest_peak (data : List PricePoint) : ℚ :=
  ((data.map (fun d => d.close)).minimum).untop' 0

/-- Expression `next(d['date'] for d in data if d['close'] == highest_peak)`
(app.py line 129): the date of the first row attaining the maximum. -/
def highest_peak_date (data : List PricePoint) : Option ℕ :=
  (data.find? (fun d => decide (d.close = highest_peak data))).map
    (fun d => d.date)

/-- Expression `next(d['date'] for d in data if d['close'] == lowest_peak)`
(app.py line 130). -/
def lowest_peak_date (data : List PricePoint) : Option ℕ :=
  (data.find? (fun d => decide (d.close = lowest_peak data))).map
    (fun d => d.date)

/-- Test `d['sma20'] is not None and d['close'] > d['sma20']`
(app.py line 302). -/
def aboveSmaB (d : IndicatorRow) : Bool :=
  match d.sma20 with
  | some s => decide (s < d.point.close)
  | none => false

/-- Test `d['sma20'] is not None and d['close'] <= d['sma20']`
(app.py line 303). -/
def belowSmaB (d : IndicatorRow) : Bool :=
  match d.sma20 with
  | some s => decide (d.point.close ≤ s)
  | none => false

/-- The `Above SMA` bucket count of `plot_pie_chart` (app.py line 302). -/
def above_sma (data : List IndicatorRow) : ℕ := data.countP aboveSmaB

/-- The `Below SMA` bucket count of `plot_pie_chart` (app.py line 303). -/
def below_sma (data : List IndicatorRow) : ℕ := data.countP belowSmaB

/-- Whether a row carries a defined sma20 value. -/
def smaDefined (d : IndicatorRow) : Bool := d.sma20.isSome

/-- Concrete witness data: a flat price point. -/
def wPoint : PricePoint :=
  { date := 0, open_ := 5, high := 5, low := 5, close := 5, volume := 5 }

/-- Concrete witness data: 15 flat points (enough history for one RSI
value). -/
def wData : List PricePoint := List.replicate 15 wPoint

/-- Concrete witness data: 20 flat points (enough history for one SMA
value). -/
def wData20 : List PricePoint := List.replicate 20 wPoint

/-- The row `calculate_technical_indicators` produces at index 14 of
`wData`. -/
def wRow : IndicatorRow := { point := wPoint, sma20 := none, rsi := some 100 }

/-- Concrete witness data: two dated points with distinct closes. -/
def pA : PricePoint :=
  { date := 0, open_ := 5, high := 5, low := 5, close := 5, volume := 1 }

/-- Second concrete witness point, later and higher. -/
def pB : PricePoint :=
  { date := 1, open_ := 7, high := 7, low := 7, close := 7, volume := 1 }

/-- Concrete witness row whose close equals its sma20. -/
def wRowEq : IndicatorRow := { point := wPoint, sma20 := some 5, rsi := none }

theorem sma20List_length (closes : List ℚ) :
    (sma20List closes).length = closes.length := by
  simp [sma20List]

theorem sma20List_getD (closes : List ℚ) (i : ℕ) (hi : i < closes.length) :
    (sma20List closes).getD i none = smaAt closes i := by
  have h1 : i < (sma20List closes).length := by simpa [sma20List] using hi
  rw [List.getD_eq_getElem _ _ h1]
  simp [sma20List]

theorem rsiList_length (closes : List ℚ) :
    (rsiList closes).length = closes.length := by
  simp [rsiList]

theorem rsiList_getD (closes : List ℚ) (i : ℕ) (hi : i < closes.length) :
    (rsiList closes).getD i none = rsiAt closes i := by
  have h1 : i < (rsiList closes).length := by simpa [rsiList] using hi
  rw [List.getD_eq_getElem _ _ h1]
  simp [rsiList]

theorem deltasAt_length (closes : List ℚ) (i : ℕ) (hi : 14 ≤ i) :
    (deltasAt closes i).length = 14 := by
  simp [deltasAt]
  omega

theorem rsiAt_eq_rsiSpecAt (closes : List ℚ) (i : ℕ) :
    rsiAt closes i = rsiSpecAt closes i := by
  by_cases h14 : 14 ≤ i
  · have hg : (gainsOf (deltasAt closes i)).length = 14 := by
      simp [gainsOf, deltasAt_length closes i h14]
    have hl : (lossesOf (deltasAt closes i)).length = 14 := by
      simp [lossesOf, deltasAt_length closes i h14]
    simp only [rsiAt, rsiSpecAt, h14, if_true, hg, hl]
    by_cases hz : (lossesOf (deltasAt closes i)).sum / (14 : ℚ) = 0
    · simp [hz]
    · simp [hz]
  · simp [rsiAt, rsiSpecAt, h14]

theorem gains_sum_nonneg (deltas : List ℚ) : 0 ≤ (gainsOf deltas).sum := by
  apply List.sum_nonneg
  intro x hx
  simp only [gainsOf, List.mem_map] at hx
  obtain ⟨d, _, rfl⟩ := hx
  by_cases hdp : 0 < d
  · simp only [hdp, if_true]
    linarith
  · simp [hdp]

theorem losses_sum_nonneg (deltas : List ℚ) : 0 ≤ (lossesOf deltas).sum := by
  apply List.sum_nonneg
  intro x hx
  simp only [lossesOf, List.mem_map] at hx
  obtain ⟨d, _, rfl⟩ := hx
  by_cases hdn : d < 0
  · simp only [hdn, if_true]
    linarith
  · simp [hdn]

theorem rsi_formula_bounds (ag al : ℚ) (hag : 0 ≤ ag) (hal : 0 ≤ al) :
    0 ≤ (if al = 0 then (100 : ℚ) else 100 - 100 / (1 + ag / al)) ∧
    (if al = 0 then (100 : ℚ) else 100 - 100 / (1 + ag / al)) ≤ 100 := by
  split_ifs with hz
  · norm_num
  · have hal' : 0 < al := lt_of_le_of_ne hal (Ne.symm hz)
    have hrs : 0 ≤ ag / al := div_nonneg hag (le_of_lt hal')
    have h1 : (1 : ℚ) ≤ 1 + ag / al := by linarith
    have hpos : 0 < 100 / (1 + ag / al) := by positivity
    have hle : 100 / (1 + ag / al) ≤ 100 := div_le_self (by norm_num) h1
    constructor <;> linarith

theorem rsiAt_bounds (closes : List ℚ) (i : ℕ) (v : ℚ)
    (h : rsiAt closes i = some v) : 0 ≤ v ∧ v ≤ 100 := by
  rw [rsiAt_eq_rsiSpecAt] at h
  by_cases h14 : 14 ≤ i
  · simp only [rsiSpecAt, h14, if_true, Option.some.injEq] at h
    subst h
    exact rsi_formula_bounds _ _
      (div_nonneg (gains_sum_nonneg _) (Nat.cast_nonneg _))
      (div_nonneg (losses_sum_nonneg _) (Nat.cast_nonneg _))
  · simp [rsiSpecAt, h14] at h

theorem cti_rows_eq (data : List PricePoint) :
    (calculate_technical_indicators data).1 =
      (List.range data.length).map (fun i =>
        { point := data.getD i default,
          sma20 := (sma20List (data.map (fun d => d.close))).getD i none,
          rsi := (rsiList (data.map (fun d => d.close))).getD i none }) := by
  by_cases hd : data = []
  · subst hd
    simp [calculate_technical_indicators]
  · simp [calculate_technical_indicators, hd]

/-- C2: the sma20 output has the length of the input; the entry at index
`i` is defined iff `19 ≤ i`, and when defined equals the arithmetic mean
(sum over length) of the window of 20 closes at indices `i-19 .. i`; for
a series shorter than 20 points every entry is undefined, and for exactly
20 points the entry at index 19 equals the mean of all 20 closes. -/
theorem C2_sma20_alignment_and_mean (closes : List ℚ) :
    (sma20List closes).length = closes.length ∧
    (∀ i, i < closes.length →
      (((sma20List closes).getD i none ≠ none) ↔ 19 ≤ i) ∧
      (19 ≤ i →
        ((closes.drop (i - 19)).take 20).length = 20 ∧
        (sma20List closes).getD i none =
          some (((closes.drop (i - 19)).take 20).sum /
            ((((closes.drop (i - 19)).take 20).length : ℕ) : ℚ)))) ∧
    (closes.length < 20 → ∀ o ∈ sma20List closes, o = none) ∧
    (closes.length = 20 →
      (sma20List closes).getD 19 none = some (closes.sum / 20)) := by
  refine ⟨sma20List_length closes, ?_, ?_, ?_⟩
  · intro i hi
    rw [sma20List_getD closes i hi]
    constructor
    · constructor
      · intro hne
        by_contra hlt
        simp [smaAt, hlt] at hne
      · intro h19
        simp [smaAt, h19]
    · intro h19
      have hlen : ((closes.drop (i - 19)).take 20).length = 20 := by
        simp [List.length_take, List.length_drop]
        omega
      refine ⟨hlen, ?_⟩
      rw [hlen]
      simp [smaAt, h19]
  · intro hshort o ho
    simp only [sma20List, List.mem_map, List.mem_range] at ho
    obtain ⟨i, hi, rfl⟩ := ho
    have : ¬ 19 ≤ i := by omega
    simp [smaAt, this]
  · intro h20
    have h19 : (19 : ℕ) < closes.length := by omega
    rw [sma20List_getD closes 19 h19]
    have hdrop : closes.drop (19 - 19) = closes := by simp
    have htake : closes.take 20 = closes := List.take_of_length_le (by omega)
    simp [smaAt, hdrop, htake]

/-- C1: the rsi14 entry at index `i` is defined iff `14 ≤ i`, and it
agrees everywhere with the claim-side formula `rsiSpecAt` (deltas over
`i-13 .. i`, gains/losses means over 14, result 100 when the average loss
is zero and `100 - 100/(1 + avg_gain/avg_loss)` otherwise). -/
theorem C1_rsi14_defined_iff_and_formula (closes : List ℚ) :
    (rsiList closes).length = closes.length ∧
    ∀ i, i < closes.length →
      (((rsiList closes).getD i none ≠ none) ↔ 14 ≤ i) ∧
      (rsiList closes).getD i none = rsiSpecAt closes i := by
  refine ⟨rsiList_length closes, ?_⟩
  intro i hi
  rw [rsiList_getD closes i hi]
  constructor
  · constructor
    · intro hne
      by_contra hlt
      simp [rsiAt, hlt] at hne
    · intro h14
      simp [rsiAt, h14]
  · exact rsiAt_eq_rsiSpecAt closes i

/-- C1 witness: a concrete 15-point series at index 14. -/
theorem C1_rsi14_defined_iff_and_formula_witness :
    (14 : ℕ) < (List.replicate 15 (5 : ℚ)).length ∧
    (rsiList (List.replicate 15 (5 : ℚ))).getD 14 none =
      rsiSpecAt (List.replicate 15 (5 : ℚ)) 14 :=
  ⟨by simp, ((C1_rsi14_defined_iff_and_formula (List.replicate 15 (5 : ℚ))).2
      14 (by simp)).2⟩

/-- C2 witness: a concrete 20-point constant series at index 19. -/
theorem C2_sma20_alignment_and_mean_witness :
    (List.replicate 20 (5 : ℚ)).length = 20 ∧
    (sma20List (List.replicate 20 (5 : ℚ))).getD 19 none =
      some ((List.replicate 20 (5 : ℚ)).sum / 20) :=
  ⟨by simp, (C2_sma20_alignment_and_mean (List.replicate 20 (5 : ℚ))).2.2.2
      (by simp)⟩

/-- C3: the indicator computation is total (it is a Lean function, hence
returns on every input, the empty series included); its row output keeps
the input length, and every sma20 entry is `none` when the series has
fewer than 20 points, every rsi entry `none` when it has fewer than 15
points. -/
theorem C3_total_and_short_series_undefined (data : List PricePoint) :
    ((calculate_technical_indicators data).1).length = data.length ∧
    (data.length < 20 →
      ∀ r ∈ (calculate_technical_indicators data).1, r.sma20 = none) ∧
    (data.length < 15 →
      ∀ r ∈ (calculate_technical_indicators data).1, r.rsi = none) := by
  rw [cti_rows_eq]
  refine ⟨by simp, ?_, ?_⟩
  · intro h20 r hr
    simp only [List.mem_map, List.mem_range] at hr
    obtain ⟨i, hi, rfl⟩ := hr
    have hlt : i < (data.map (fun d => d.close)).length := by simpa using hi
    show (sma20List (data.map (fun d => d.close))).getD i none = none
    rw [sma20List_getD _ i hlt, smaAt, if_neg (by omega)]
  · intro h15 r hr
    simp only [List.mem_map, List.mem_range] at hr
    obtain ⟨i, hi, rfl⟩ := hr
    have hlt : i < (data.map (fun d => d.close)).length := by simpa using hi
    show (rsiList (data.map (fun d => d.close))).getD i none = none
    rw [rsiList_getD _ i hlt, rsiAt, if_neg (by omega)]

/-- C3 witness: the empty series and a concrete 3-point series. -/
theorem C3_total_and_short_series_undefined_witness :
    ((calculate_technical_indicators
        [({ date := 0, open_ := 1, high := 2, low := 1, close := 1, volume := 0 } :
          PricePoint)]).1).length = 1 ∧
    (∀ r ∈ (calculate_technical_indicators
        [({ date := 0, open_ := 1, high := 2, low := 1, close := 1, volume := 0 } :
          PricePoint)]).1, r.sma20 = none) :=
  ⟨(C3_total_and_short_series_undefined _).1,
   (C3_total_and_short_series_undefined _).2.1 (by simp)⟩

/-- C4: every defined rsi value on every row produced by
`calculate_technical_indicators` lies in the closed interval [0, 100]. -/
theorem C4_rsi_within_0_100 (data : List PricePoint) (r : IndicatorRow)
    (hr : r ∈ (calculate_technical_indicators data).1) (v : ℚ)
    (hv : r.rsi = some v) : 0 ≤ v ∧ v ≤ 100 := by
  rw [cti_rows_eq] at hr
  simp only [List.mem_map, List.mem_range] at hr
  obtain ⟨i, hi, rfl⟩ := hr
  have hlt : i < (data.map (fun d => d.close)).length := by simpa using hi
  have hv' : rsiAt (data.map (fun d => d.close)) i = some v := by
    rw [← rsiList_getD _ i hlt]
    exact hv
  exact rsiAt_bounds _ i v hv'

/-- C9: the indicator computation keeps every original price-point field
unchanged (the whole embedded `point` is equal), preserves the length and
alignment, and attaches exactly the sma20 and rsi values at each index. -/
theorem C9_frame_preservation (data : List PricePoint) :
    ((calculate_technical_indicators data).1).length = data.length ∧
    ∀ i, i < data.length →
      ((((calculate_technical_indicators data).1).getD i default).point =
        data.getD i default ∧
       (((calculate_technical_indicators data).1).getD i default).sma20 =
        smaAt (data.map (fun d => d.close)) i ∧
       (((calculate_technical_indicators data).1).getD i default).rsi =
        rsiAt (data.map (fun d => d.close)) i) := by
  rw [cti_rows_eq]
  constructor
  · simp
  · intro i hi
    have hrange : i < ((List.range data.length).map (fun i =>
        ({ point := data.getD i default,
           sma20 := (sma20List (data.map (fun d => d.close))).getD i none,
           rsi := (rsiList (data.map (fun d => d.close))).getD i none } :
          IndicatorRow))).length := by
      simpa using hi
    rw [List.getD_eq_getElem _ _ hrange]
    simp only [List.getElem_map, List.getElem_range]
    refine ⟨trivial, ?_, ?_⟩
    · exact sma20List_getD _ i (by simpa using hi)
    · exact rsiList_getD _ i (by simpa using hi)

set_option maxRecDepth 8192 in
/-- C6: an empty, whitespace-only or non-string ticker, or a timeframe
outside the enumerated set, makes `analyze_stock` return the validation
error (whose text contains each of the 8 accepted timeframes) with null
summary and null rows, and the data collaborator is never invoked
(the instrumentation boolean is `false`). -/
theorem C6_validation_rejects_without_fetch
    (fetch : String → String → FetchOutcome) (ticker : TickerInput)
    (timeframe : String)
    (h : tickerInvalid ticker = true ∨ timeframe ∉ valid_timeframes) :
    analyze_stock fetch ticker timeframe =
      ({ summary := none, rows := none, error := some validationMessage }, false) ∧
    valid_timeframes.length = 8 ∧
    (∀ tf ∈ valid_timeframes, List.IsInfix tf.data validationMessage.data) := by
  refine ⟨?_, by decide, by decide⟩
  have hcond :
      (tickerInvalid ticker || !(valid_timeframes.contains timeframe)) = true := by
    rcases h with h | h
    · simp [h]
    · have hc : valid_timeframes.contains timeframe = false := by
        rcases hc : valid_timeframes.contains timeframe with _ | _
        · rfl
        · exact absurd (List.elem_iff.mp hc) h
      simp only [hc, Bool.not_false, Bool.or_true]
  simp only [analyze_stock]
  rw [hcond]
  simp

/-- C6 witness: ticker AAPL with the out-of-set timeframe 2W. -/
theorem C6_validation_rejects_without_fetch_witness :
    ("2W" ∉ valid_timeframes) ∧
    analyze_stock (fun _ _ => FetchOutcome.ok []) (TickerInput.str "AAPL") "2W" =
      ({ summary := none, rows := none, error := some validationMessage }, false) :=
  ⟨by decide,
   (C6_validation_rejects_without_fetch (fun _ _ => FetchOutcome.ok [])
      (TickerInput.str "AAPL") "2W" (Or.inr (by decide))).1⟩

/-- C7: with a valid ticker and timeframe, a provider exception or an
empty fetch result is converted into an error triple — null summary,
null rows, non-null message — and `analyze_stock` returns normally (it
is a total function). -/
theorem C7_fetch_failure_yields_error_triple
    (fetch : String → String → FetchOutcome) (s timeframe : String)
    (htick : tickerInvalid (TickerInput.str s) = false)
    (htf : timeframe ∈ valid_timeframes)
    (hfail : (∃ m, fetch s timeframe = FetchOutcome.err m) ∨
      fetch s timeframe = FetchOutcome.ok []) :
    ∃ msg, analyze_stock fetch (TickerInput.str s) timeframe =
      ({ summary := none, rows := none, error := some msg }, true) := by
  have hcond :
      (tickerInvalid (TickerInput.str s) ||
        !(valid_timeframes.contains timeframe)) = false := by
    have hc : valid_timeframes.contains timeframe = true := List.elem_iff.mpr htf
    simp only [htick, hc, Bool.not_true, Bool.or_false]
  have hgsd : timeframe = "YTD" ∨ timeframe ∈ gsd_timeframes := by
    simp only [valid_timeframes, List.mem_cons, List.not_mem_nil, or_false] at htf
    rcases htf with rfl | rfl | rfl | rfl | rfl | rfl | rfl | rfl
    · exact Or.inr (by decide)
    · exact Or.inr (by decide)
    · exact Or.inr (by decide)
    · exact Or.inr (by decide)
    · exact Or.inr (by decide)
    · exact Or.inr (by decide)
    · exact Or.inl rfl
    · exact Or.inr (by decide)
  rcases hfail with ⟨m, hm⟩ | hok
  · refine ⟨"Error fetching data: " ++ m, ?_⟩
    have hg : get_stock_data fetch s timeframe =
        (none, some ("Error fetching data: " ++ m)) := by
      rw [get_stock_data, if_pos hgsd, hm]
    simp only [analyze_stock]
    rw [hcond]
    simp only [Bool.false_eq_true, if_false]
    rw [hg]
  · refine ⟨"Error fetching data: No data found for ticker " ++ s ++ ".", ?_⟩
    have hg : get_stock_data fetch s timeframe =
        (none, some ("Error fetching data: No data found for ticker " ++
          s ++ ".")) := by
      rw [get_stock_data, if_pos hgsd, hok]
      simp
    simp only [analyze_stock]
    rw [hcond]
    simp only [Bool.false_eq_true, if_false]
    rw [hg]

/-- C7 witness: ticker AAPL, timeframe 1M, a provider returning an empty
frame. -/
theorem C7_fetch_failure_yields_error_triple_witness :
    tickerInvalid (TickerInput.str "AAPL") = false ∧
    ("1M" ∈ valid_timeframes) ∧
    ∃ msg, analyze_stock (fun _ _ => FetchOutcome.ok [])
        (TickerInput.str "AAPL") "1M" =
      ({ summary := none, rows := none, error := some msg }, true) :=
  ⟨by decide, by decide,
   C7_fetch_failure_yields_error_triple (fun _ _ => FetchOutcome.ok [])
     "AAPL" "1M" (by decide) (by decide) (Or.inr rfl)⟩

/-- C10: the two SMA pie buckets partition the rows with a defined
sma20 — their counts sum to the number of such rows — and a row whose
close exactly equals its sma20 satisfies the below test (`close <= sma`)
and not the above test (`close > sma`). -/
theorem C10_pie_sma_buckets_partition (data : List IndicatorRow) :
    above_sma data + below_sma data = data.countP smaDefined ∧
    ∀ d ∈ data, ∀ s, d.sma20 = some s → d.point.close = s →
      (belowSmaB d = true ∧ aboveSmaB d = false) := by
  constructor
  · induction data with
    | nil => simp [above_sma, below_sma]
    | cons d tl ih =>
      simp only [above_sma, below_sma, List.countP_cons] at ih ⊢
      rcases hs : d.sma20 with _ | s
      · have h1 : aboveSmaB d = false := by simp [aboveSmaB, hs]
        have h2 : belowSmaB d = false := by simp [belowSmaB, hs]
        have h3 : smaDefined d = false := by simp [smaDefined, hs]
        simp only [h1, h2, h3, if_false, Bool.false_eq_true]
        omega
      · have h3 : smaDefined d = true := by simp [smaDefined, hs]
        rcases le_or_lt d.point.close s with hle | hlt
        · have h1 : aboveSmaB d = false := by
            simp only [aboveSmaB, hs, decide_eq_false_iff_not]
            exact not_lt.mpr hle
          have h2 : belowSmaB d = true := by
            simp only [belowSmaB, hs, decide_eq_true_eq]
            exact hle
          simp only [h1, h2, h3, if_true, if_false, Bool.false_eq_true]
          omega
        · have h1 : aboveSmaB d = true := by
            simp only [aboveSmaB, hs, decide_eq_true_eq]
            exact hlt
          have h2 : belowSmaB d = false := by
            simp only [belowSmaB, hs, decide_eq_false_iff_not]
            exact not_le.mpr hlt
          simp only [h1, h2, h3, if_true, if_false, Bool.false_eq_true]
          omega
  · intro d _ s hs heq
    constructor
    · simp only [belowSmaB, hs, decide_eq_true_eq]
      exact le_of_eq heq
    · simp only [aboveSmaB, hs, decide_eq_false_iff_not]
      rw [heq]
      exact lt_irrefl s

/-- C10 witness: a single row with close equal to sma20. -/
theorem C10_pie_sma_buckets_partition_witness :
    wRowEq ∈ [wRowEq] ∧ wRowEq.sma20 = some 5 ∧ wRowEq.point.close = 5 ∧
    (belowSmaB wRowEq = true ∧ aboveSmaB wRowEq = false) ∧
    above_sma [wRowEq] + below_sma [wRowEq] = List.countP smaDefined [wRowEq] :=
  ⟨by simp, rfl, rfl,
   (C10_pie_sma_buckets_partition [wRowEq]).2 wRowEq (by simp) 5 rfl rfl,
   (C10_pie_sma_buckets_partition [wRowEq]).1⟩

/-- C4 witness: the row at index 14 of a 15-point flat series carries
rsi 100, which the theorem places in [0, 100]. -/
theorem C4_rsi_within_0_100_witness :
    wRow ∈ (calculate_technical_indicators wData).1 ∧ wRow.rsi = some 100 ∧
    (0 : ℚ) ≤ 100 ∧ (100 : ℚ) ≤ 100 := by
  have hc : wData.map (fun d => d.close) = List.replicate 15 (5 : ℚ) := by
    simp [wData, wPoint]
  have hmem : wRow ∈ (calculate_technical_indicators wData).1 := by
    rw [cti_rows_eq]
    have h14 : (14 : ℕ) ∈ List.range wData.length := by simp [wData]
    refine List.mem_map.mpr ⟨14, h14, ?_⟩
    have hpoint : wData.getD 14 default = wPoint := by
      simp [wData, List.getD]
    have hsma : (sma20List (wData.map (fun d => d.close))).getD 14 none = none := by
      rw [hc, sma20List_getD _ 14 (by simp), smaAt, if_neg (by omega)]
    have hrsi : (rsiList (wData.map (fun d => d.close))).getD 14 none = some 100 := by
      rw [hc, rsiList_getD _ 14 (by simp)]
      norm_num [rsiAt, deltasAt, gainsOf, lossesOf, List.range', List.getD]
    rw [hpoint, hsma, hrsi]
    rfl
  exact ⟨hmem, rfl, C4_rsi_within_0_100 wData wRow hmem 100 rfl⟩

/-- C9 witness: index 0 of the 15-point flat series. -/
theorem C9_frame_preservation_witness :
    (0 : ℕ) < wData.length ∧
    ((((calculate_technical_indicators wData).1).getD 0 default).point =
      wData.getD 0 default ∧
     (((calculate_technical_indicators wData).1).getD 0 default).sma20 =
      smaAt (wData.map (fun d => d.close)) 0 ∧
     (((calculate_technical_indicators wData).1).getD 0 default).rsi =
      rsiAt (wData.map (fun d => d.close)) 0) :=
  ⟨by simp [wData], (C9_frame_preservation wData).2 0 (by simp [wData])⟩

theorem sma20List_getLastD (closes : List ℚ) (h : closes ≠ []) :
    (sma20List closes).getLastD none = smaAt closes (closes.length - 1) := by
  have hlen : (sma20List closes).length = closes.length := sma20List_length closes
  have hpos : 0 < closes.length := List.length_pos.mpr h
  have hlt : closes.length - 1 < (sma20List closes).length := by omega
  rw [List.getLastD_eq_getLast?, List.getLast?_eq_getElem?, hlen,
    List.getElem?_eq_getElem hlt]
  simp [sma20List]

theorem cti_current_sma (data : List PricePoint) (hd : data ≠ []) :
    (calculate_technical_indicators data).2.1 =
      smaAt (data.map (fun d => d.close)) (data.length - 1) := by
  have h1 : (calculate_technical_indicators data).2.1 =
      (sma20List (data.map (fun d => d.close))).getLastD none := by
    simp [calculate_technical_indicators, hd]
  rw [h1, sma20List_getLastD _ (by simpa using hd)]
  simp

theorem smaAt_pos (closes : List ℚ) (i : ℕ) (hi : i < closes.length)
    (hpos : ∀ x ∈ closes, 0 < x) (s : ℚ) (h : smaAt closes i = some s) :
    0 < s := by
  rw [smaAt] at h
  by_cases h19 : 19 ≤ i
  · rw [if_pos h19, Option.some_inj] at h
    subst h
    apply div_pos _ (by norm_num)
    apply List.sum_pos
    · intro x hx
      exact hpos x (List.drop_subset _ _ (List.take_subset _ _ hx))
    · intro hnil
      have hl := congrArg List.length hnil
      simp only [List.length_take, List.length_drop, List.length_nil] at hl
      omega
  · rw [if_neg h19] at h
    cases h

/-- C5: the trend classification (app.py lines 138-140, `trendOf` applied
to the current SMA and the close of the last row, exactly as
`analyze_stock` does) is bullish iff the SMA is defined and below the
current price, bearish iff defined and above, neutral iff undefined or
equal.  The positivity hypothesis is the data-model invariant (closes
are positive); it rules out a defined SMA of exactly 0, which Python
truthiness would silently treat as undefined. -/
theorem C5_trend_classification (data : List PricePoint) (hne : data ≠ [])
    (hpos : ∀ d ∈ data, 0 < d.close) :
    (trendOf (calculate_technical_indicators data).2.1
        (data.getLastD default).close = "bullish" ↔
      ∃ s, (calculate_technical_indicators data).2.1 = some s ∧
        s < (data.getLastD default).close) ∧
    (trendOf (calculate_technical_indicators data).2.1
        (data.getLastD default).close = "bearish" ↔
      ∃ s, (calculate_technical_indicators data).2.1 = some s ∧
        (data.getLastD default).close < s) ∧
    (trendOf (calculate_technical_indicators data).2.1
        (data.getLastD default).close = "neutral" ↔
      (calculate_technical_indicators data).2.1 = none ∨
      ∃ s, (calculate_technical_indicators data).2.1 = some s ∧
        (data.getLastD default).close = s) := by
  have hkey := cti_current_sma data hne
  obtain ⟨csma, hcs⟩ : ∃ o, (calculate_technical_indicators data).2.1 = o :=
    ⟨_, rfl⟩
  rw [hcs]
  have hspos : ∀ s, csma = some s → 0 < s := by
    intro s hs
    apply smaAt_pos (data.map (fun d => d.close)) (data.length - 1)
    · have : 0 < data.length := List.length_pos.mpr hne
      simp only [List.length_map]
      omega
    · intro x hx
      obtain ⟨d, hd, rfl⟩ := List.mem_map.mp hx
      exact hpos d hd
    · rw [← hkey, hcs, hs]
  rcases csma with _ | s
  · refine ⟨?_, ?_, ?_⟩
    · simp [trendOf]
    · simp [trendOf]
    · simp [trendOf]
  · have hs0 : 0 < s := hspos s rfl
    have hsne : s ≠ 0 := ne_of_gt hs0
    rcases lt_trichotomy s (data.getLastD default).close with hlt | heq | hgt
    · have ht : trendOf (some s) (data.getLastD default).close = "bullish" := by
        simp only [trendOf]
        rw [if_pos ⟨hsne, hlt⟩]
      refine ⟨?_, ?_, ?_⟩
      · rw [ht]
        exact iff_of_true rfl ⟨s, rfl, hlt⟩
      · rw [ht]
        refine iff_of_false (by decide) ?_
        rintro ⟨t, hts, htp⟩
        rw [Option.some_inj] at hts
        subst hts
        exact absurd hlt (not_lt.mpr (le_of_lt htp))
      · rw [ht]
        refine iff_of_false (by decide) ?_
        rintro (hn | ⟨t, hts, htp⟩)
        · cases hn
        · rw [Option.some_inj] at hts
          subst hts
          rw [htp] at hlt
          exact lt_irrefl _ hlt
    · have ht : trendOf (some s) (data.getLastD default).close = "neutral" := by
        have h1 : ¬ (s ≠ 0 ∧ s < (data.getLastD default).close) := by
          rintro ⟨_, hl⟩
          rw [heq] at hl
          exact lt_irrefl _ hl
        have h2 : ¬ (s ≠ 0 ∧ (data.getLastD default).close < s) := by
          rintro ⟨_, hl⟩
          rw [heq] at hl
          exact lt_irrefl _ hl
        simp only [trendOf]
        rw [if_neg h1, if_neg h2]
      refine ⟨?_, ?_, ?_⟩
      · rw [ht]
        refine iff_of_false (by decide) ?_
        rintro ⟨t, hts, htp⟩
        rw [Option.some_inj] at hts
        subst hts
        rw [heq] at htp
        exact lt_irrefl _ htp
      · rw [ht]
        refine iff_of_false (by decide) ?_
        rintro ⟨t, hts, htp⟩
        rw [Option.some_inj] at hts
        subst hts
        rw [heq] at htp
        exact lt_irrefl _ htp
      · rw [ht]
        exact iff_of_true rfl (Or.inr ⟨s, rfl, heq.symm⟩)
    · have ht : trendOf (some s) (data.getLastD default).close = "bearish" := by
        have h1 : ¬ (s ≠ 0 ∧ s < (data.getLastD default).close) := by
          rintro ⟨_, hl⟩
          exact absurd hl (not_lt.mpr (le_of_lt hgt))
        simp only [trendOf]
        rw [if_neg h1, if_pos ⟨hsne, hgt⟩]
      refine ⟨?_, ?_, ?_⟩
      · rw [ht]
        refine iff_of_false (by decide) ?_
        rintro ⟨t, hts, htp⟩
        rw [Option.some_inj] at hts
        subst hts
        exact absurd htp (not_lt.mpr (le_of_lt hgt))
      · rw [ht]
        exact iff_of_true rfl ⟨s, rfl, hgt⟩
      · rw [ht]
        refine iff_of_false (by decide) ?_
        rintro (hn | ⟨t, hts, htp⟩)
        · cases hn
        · rw [Option.some_inj] at hts
          subst hts
          rw [htp] at hgt
          exact lt_irrefl _ hgt

/-- C5 witness: 20 flat points; the SMA equals the price and the trend
is neutral. -/
theorem C5_trend_classification_witness :
    wData20 ≠ [] ∧
    (trendOf (calculate_technical_indicators wData20).2.1
        (wData20.getLastD default).close = "neutral" ↔
      (calculate_technical_indicators wData20).2.1 = none ∨
      ∃ s, (calculate_technical_indicators wData20).2.1 = some s ∧
        (wData20.getLastD default).close = s) := by
  have hpos : ∀ d ∈ wData20, 0 < d.close := by
    intro d hd
    rw [wData20, List.mem_replicate] at hd
    rw [hd.2]
    norm_num [wPoint]
  exact ⟨by simp [wData20],
    (C5_trend_classification wData20 (by simp [wData20]) hpos).2.2⟩

theorem find?_first_sorted {α : Type} (p : α → Bool) (R : α → α → Prop)
    (l : List α) (hp : l.Pairwise R) (a : α) (h : l.find? p = some a) :
    p a = true ∧ a ∈ l ∧ ∀ b ∈ l, p b = true → a = b ∨ R a b := by
  induction l with
  | nil => simp at h
  | cons x xs ih =>
    rw [List.find?_cons] at h
    rcases hx : p x with _ | _
    · simp only [hx] at h
      obtain ⟨ha1, ha2, ha3⟩ := ih (List.pairwise_cons.mp hp).2 h
      refine ⟨ha1, List.mem_cons_of_mem _ ha2, ?_⟩
      intro b hb hpb
      rcases List.mem_cons.mp hb with rfl | hb'
      · rw [hx] at hpb
        cases hpb
      · exact ha3 b hb' hpb
    · simp only [hx] at h
      rw [Option.some_inj] at h
      subst h
      refine ⟨hx, List.mem_cons_self _ _, ?_⟩
      intro b hb _
      rcases List.mem_cons.mp hb with rfl | hb'
      · exact Or.inl rfl
      · exact Or.inr ((List.pairwise_cons.mp hp).1 b hb')

theorem exists_row_at_highest (data : List PricePoint) (hne : data ≠ []) :
    ∃ d ∈ data, d.close = highest_peak data := by
  have hc : data.map (fun d => d.close) ≠ [] := by simpa using hne
  rcases hm : (data.map (fun d => d.close)).maximum with _ | m
  · exact absurd (List.maximum_eq_bot.mp hm) hc
  · have hmem : m ∈ data.map (fun d => d.close) := List.maximum_mem hm
    obtain ⟨d, hd, hdc⟩ := List.mem_map.mp hmem
    refine ⟨d, hd, ?_⟩
    rw [highest_peak, hm, hdc]
    rfl

theorem exists_row_at_lowest (data : List PricePoint) (hne : data ≠ []) :
    ∃ d ∈ data, d.close = lowest_peak data := by
  have hc : data.map (fun d => d.close) ≠ [] := by simpa using hne
  rcases hm : (data.map (fun d => d.close)).minimum with _ | m
  · exact absurd (List.minimum_eq_top.mp hm) hc
  · have hmem : m ∈ data.map (fun d => d.close) := List.minimum_mem hm
    obtain ⟨d, hd, hdc⟩ := List.mem_map.mp hmem
    refine ⟨d, hd, ?_⟩
    rw [lowest_peak, hm, hdc]
    rfl

/-- C8: on a non-empty series with strictly increasing dates (the
PriceSeries invariant; `get_stock_data` sorts by date), the reported
highest-peak date is the date of the chronologically first row attaining
the maximum close, and the lowest-peak date that of the first row
attaining the minimum close. -/
theorem C8_extreme_dates_first_occurrence (data : List PricePoint)
    (hne : data ≠ [])
    (hsorted : data.Pairwise (fun a b => a.date < b.date)) :
    (∃ r ∈ data, highest_peak_date data = some r.date ∧
      r.close = highest_peak data ∧
      ∀ q ∈ data, q.close = highest_peak data → r.date ≤ q.date) ∧
    (∃ r ∈ data, lowest_peak_date data = some r.date ∧
      r.close = lowest_peak data ∧
      ∀ q ∈ data, q.close = lowest_peak data → r.date ≤ q.date) := by
  constructor
  · obtain ⟨d0, hd0, hc0⟩ := exists_row_at_highest data hne
    have hsome : (data.find? (fun d => decide (d.close = highest_peak data))).isSome :=
      List.find?_isSome.mpr ⟨d0, hd0, by simp [hc0]⟩
    obtain ⟨r, hr⟩ := Option.isSome_iff_exists.mp hsome
    obtain ⟨hp1, hp2, hp3⟩ := find?_first_sorted _ _ data hsorted r hr
    refine ⟨r, hp2, ?_, of_decide_eq_true hp1, ?_⟩
    · rw [highest_peak_date, hr]
      rfl
    · intro q hq hqc
      rcases hp3 q hq (by simp [hqc]) with rfl | hlt
      · exact le_refl _
      · exact le_of_lt hlt
  · obtain ⟨d0, hd0, hc0⟩ := exists_row_at_lowest data hne
    have hsome : (data.find? (fun d => decide (d.close = lowest_peak data))).isSome :=
      List.find?_isSome.mpr ⟨d0, hd0, by simp [hc0]⟩
    obtain ⟨r, hr⟩ := Option.isSome_iff_exists.mp hsome
    obtain ⟨hp1, hp2, hp3⟩ := find?_first_sorted _ _ data hsorted r hr
    refine ⟨r, hp2, ?_, of_decide_eq_true hp1, ?_⟩
    · rw [lowest_peak_date, hr]
      rfl
    · intro q hq hqc
      rcases hp3 q hq (by simp [hqc]) with rfl | hlt
      · exact le_refl _
      · exact le_of_lt hlt

/-- C8 witness: two dated rows with distinct closes. -/
theorem C8_extreme_dates_first_occurrence_witness :
    ([pA, pB] ≠ []) ∧
    List.Pairwise (fun a b : PricePoint => a.date < b.date) [pA, pB] ∧
    (∃ r ∈ [pA, pB], highest_peak_date [pA, pB] = some r.date ∧
      r.close = highest_peak [pA, pB] ∧
      ∀ q ∈ [pA, pB], q.close = highest_peak [pA, pB] → r.date ≤ q.date) := by
  have hsort : List.Pairwise (fun a b : PricePoint => a.date < b.date) [pA, pB] := by
    simp [List.pairwise_cons, pA, pB]
  exact ⟨by simp, hsort,
    (C8_extreme_dates_first_occurrence [pA, pB] (by simp) hsort).1⟩

end StockMarket
